import Mathlib

/- Shallow embedding of the libvirt libxl capability builder
   (src/libxl/libxl_capabilities.c) and the cpuinfo populator of the old
   nodeinfo.c.  C strings are modelled as Lean String or List Char, machine
   integers as Nat (the code only compares, masks and divides them),
   fallible libxl queries as Option-valued fields of a context record, and
   fallible C functions as Except-valued Lean functions.  Build-time macro
   constants from libxl_capabilities.h and configure (binary directories,
   the generated network device name start) are threaded as a BuildConf
   record, so no theorem depends on their concrete values. -/

/-- virArch constructors that can appear in libxlCapsInitGuests (subset of
the libvirt virArch enumeration). -/
inductive virArch
  | i686 | x86_64 | itanium | ppc64 | armv7l | aarch64
deriving DecidableEq, Fintype

/-- virDomainOstype values used by this code: VIR_DOMAIN_OSTYPE_HVM and
VIR_DOMAIN_OSTYPE_XEN. -/
inductive virDomainOstype
  | hvm | xen
deriving DecidableEq

/-- guest_arch scratch record of libxl_capabilities.c lines 47-54.  The C
ints that are used as flags become Bool; the bits field is never written
after the memset and stays 0. -/
structure guest_arch where
  arch : virArch
  bits : Nat
  hvm : Bool
  pae : Bool
  nonpae : Bool
  ia64_be : Bool
deriving DecidableEq

/-- Build-time constants: LIBXL_EXECBIN_DIR, LIBXL_FIRMWARE_DIR and
LIBXL_GENERATED_PREFIX_XEN are macros defined outside the shown sources,
so they are parameters of the embedding. -/
structure BuildConf where
  execbinDir : String
  fwDir : String
  netPfx : String

/-- libxl_physinfo as used here: only the hw_cap array of 32-bit words is
read (word 0). -/
structure libxl_physinfo where
  hw_cap : List Nat
deriving DecidableEq

/-- libxl_version_info as used here: only the capabilities string, which
may be NULL. -/
structure libxl_version_info where
  capabilities : Option String
deriving DecidableEq

/-- libxl_cputopology record: per-CPU core, socket and node indices. -/
structure libxl_cputopology where
  core : Nat
  socket : Nat
  node : Nat
deriving DecidableEq

/-- LibxlCtx models the libxl_ctx handle as an oracle holding the answers
of the four toolstack queries; none models a failed query (NULL result),
and for the two list queries an empty list models the zero-count answer. -/
structure LibxlCtx where
  physinfo : Option libxl_physinfo
  numainfo : Option (List Nat)
  cputopo : Option (List libxl_cputopology)
  verinfo : Option libxl_version_info

/-- Error kinds reported through virReportError by the three builders. -/
inductive LibxlError
  | HostQuery | TopologyQuery | VersionQuery | CapabilitiesMissing
deriving DecidableEq

/-- virCapsHostNUMACellCPU: id, socket_id, core_id and the siblings bitmap,
modelled as the list of set bit indices in the order they are set. -/
structure virCapsHostNUMACellCPU where
  id : Nat
  socket_id : Nat
  core_id : Nat
  siblings : List Nat
deriving DecidableEq

/-- virCapsHostNUMACell as filled by virCapabilitiesAddHostNUMACell: node
number, memory in KiB and the CPU list. -/
structure virCapsHostNUMACell where
  num : Nat
  mem : Nat
  cpus : List virCapsHostNUMACellCPU
deriving DecidableEq

/-- virCapsGuestFeature as added by virCapabilitiesAddGuestFeature. -/
structure virCapsGuestFeature where
  name : String
  defaultOn : Bool
  toggle : Bool
deriving DecidableEq

/-- virCapsGuest as assembled by virCapabilitiesAddGuest plus the calls
that follow it in libxlCapsInitGuests. -/
structure virCapsGuest where
  ostype : virDomainOstype
  arch : virArch
  emulator : String
  loader : Option String
  machines : List String
  domains : List String
  features : List virCapsGuestFeature
deriving DecidableEq

/-- virCaps object: host features, generated net device name start, NUMA
cells, guests, and the two flags passed to virCapabilitiesNew. -/
structure virCaps where
  hostFeatures : List String
  netPfx : Option String
  numaCells : List virCapsHostNUMACell
  guests : List virCapsGuest
  suspend : Bool
  resume : Bool
deriving DecidableEq

/-- virCapabilitiesNew seeds an empty capability object with the two
booleans (the host architecture argument is an external value that nothing
in the shown code reads back, so it is not modelled). -/
def virCapabilitiesNew (susp res : Bool) : virCaps :=
  { hostFeatures := [], netPfx := none, numaCells := [], guests := []
    suspend := susp, resume := res }

/-- virCapsEmpty is a fresh object as the assembler would create it. -/
def virCapsEmpty : virCaps := virCapabilitiesNew true true

/- ---------- generic list helpers used by the embedding ---------- -/

/-- updAt l i f replaces the element at index i by its image under f, the
model of a C in-place array element update; out of range it is the
identity (the C code never goes out of range where we use it). -/
def updAt {α : Type} : List α → Nat → (α → α) → List α
  | [], _, _ => []
  | a :: l, 0, f => f a :: l
  | a :: l, n + 1, f => a :: updAt l n f

/-- findIdxL p l is the index of the first element satisfying p, the model
of the C linear search loops. -/
def findIdxL {α : Type} (p : α → Bool) : List α → Option Nat
  | [] => none
  | a :: l => if p a then some 0 else (findIdxL p l).map (· + 1)

/-- enumFromL k l pairs every element of l with its index counted from k,
the model of a C for loop indexing into an array. -/
def enumFromL {α : Type} (k : Nat) : List α → List (Nat × α)
  | [] => []
  | a :: l => (k, a) :: enumFromL (k + 1) l

/-- strpfx s p models STRPREFIX(s, p): p is a prefix of s. -/
def strpfx (s : List Char) (p : String) : Bool :=
  p.toList.isPrefixOf s

/-- containsSub hay nee models strstr(hay, nee) != NULL. -/
def containsSub : List Char → List Char → Bool
  | [], nee => nee.isEmpty
  | c :: t, nee => nee.isPrefixOf (c :: t) || containsSub t nee

/-- strtokAux acc s accumulates the current token (reversed) while
splitting s at spaces, skipping empty tokens, as strtok_r with " " does. -/
def strtokAux : List Char → List Char → List (List Char)
  | [], acc => if acc = [] then [] else [acc.reverse]
  | c :: rest, acc =>
    if c = ' ' then
      if acc = [] then strtokAux rest [] else acc.reverse :: strtokAux rest []
    else strtokAux rest (c :: acc)

/-- strtokSp s is the token list strtok_r(s, " ", ...) would produce. -/
def strtokSp (s : List Char) : List (List Char) :=
  strtokAux s []

/- ---------- libxlCapsInitHost (lines 59-85) ---------- -/

/-- LIBXL_X86_FEATURE_PAE_MASK of line 44. -/
def LIBXL_X86_FEATURE_PAE_MASK : Nat := 0x40

/-- libxlCapsInitHost: fail if the physinfo query failed, else add host
feature "pae" when bit 6 of hw_cap word 0 is set, and set the generated
net device name start. -/
def libxlCapsInitHost (conf : BuildConf) (ctx : LibxlCtx) (caps : virCaps) :
    Except LibxlError virCaps :=
  match ctx.physinfo with
  | none => .error .HostQuery
  | some phy =>
    let host_pae := (phy.hw_cap.getD 0 0) &&& LIBXL_X86_FEATURE_PAE_MASK
    let caps := if host_pae ≠ 0 then
        { caps with hostFeatures := caps.hostFeatures ++ ["pae"] }
      else caps
    .ok { caps with netPfx := some conf.netPfx }

/- ---------- libxlCapsInitNuma (lines 87-196) ---------- -/

/-- LIBXL_CPUTOPOLOGY_INVALID_ENTRY sentinel (all-ones 32-bit value, from
the libxl headers outside the shown sources). -/
def LIBXL_CPUTOPOLOGY_INVALID_ENTRY : Nat := 4294967295

/-- LIBXL_NUMAINFO_INVALID_ENTRY sentinel (all-ones value, from the libxl
headers outside the shown sources). -/
def LIBXL_NUMAINFO_INVALID_ENTRY : Nat := 18446744073709551615

/-- numaPass1Step is one iteration of the first loop (lines 120-146): skip
invalid-core entries, else append a fresh CpuInfo with an empty siblings
bitmap to the list of the node of this CPU. -/
def numaPass1Step (st : List (List virCapsHostNUMACellCPU))
    (it : Nat × libxl_cputopology) : List (List virCapsHostNUMACellCPU) :=
  if it.2.core = LIBXL_CPUTOPOLOGY_INVALID_ENTRY then st
  else updAt st it.2.node (fun cs =>
    cs ++ [{ id := it.1, socket_id := it.2.socket, core_id := it.2.core
             siblings := [] }])

/-- numaPass2Step is one iteration of the second loop (lines 149-161): for
every already-collected CpuInfo of the node of CPU i whose socket and core
match, set bit i in its siblings bitmap. -/
def numaPass2Step (st : List (List virCapsHostNUMACellCPU))
    (it : Nat × libxl_cputopology) : List (List virCapsHostNUMACellCPU) :=
  if it.2.core = LIBXL_CPUTOPOLOGY_INVALID_ENTRY then st
  else updAt st it.2.node (fun cs => cs.map (fun c =>
    if c.socket_id = it.2.socket ∧ c.core_id = it.2.core then
      { c with siblings := c.siblings ++ [it.1] }
    else c))

/-- numaCellsOf is the cell emission loop (lines 163-179): one cell per
node whose size is not the invalid sentinel, with memory divided by 1024
and the collected CPU list; invalid-size nodes are skipped. -/
def numaCellsOf (numa : List Nat) (cpus : List (List virCapsHostNUMACellCPU)) :
    List virCapsHostNUMACell :=
  (enumFromL 0 numa).filterMap (fun it =>
    if it.2 = LIBXL_NUMAINFO_INVALID_ENTRY then none
    else some { num := it.1, mem := it.2 / 1024, cpus := cpus.getD it.1 [] })

/-- libxlCapsInitNuma: fail on a failed or empty numainfo or cputopology
query, else run the two passes over the per-CPU records and attach the
cells of the valid-size nodes. -/
def libxlCapsInitNuma (ctx : LibxlCtx) (caps : virCaps) :
    Except LibxlError virCaps :=
  match ctx.numainfo with
  | none => .error .TopologyQuery
  | some numa =>
    if numa.length = 0 then .error .TopologyQuery
    else match ctx.cputopo with
      | none => .error .TopologyQuery
      | some topo =>
        if topo.length = 0 then .error .TopologyQuery
        else
          let cpus0 : List (List virCapsHostNUMACellCPU) :=
            List.replicate numa.length []
          let cpus1 := (enumFromL 0 topo).foldl numaPass1Step cpus0
          let cpus2 := (enumFromL 0 topo).foldl numaPass2Step cpus1
          .ok { caps with numaCells := caps.numaCells ++ numaCellsOf numa cpus2 }

/- ---------- libxlCapsInitGuests (lines 198-397) ---------- -/

/-- stripLit p s returns the rest of s after the literal p, when p is a
prefix of s. -/
def stripLit (p : List Char) (s : List Char) : Option (List Char) :=
  if p.isPrefixOf s then some (s.drop p.length) else none

/-- digits1 consumes one or more [[:digit:]] characters (maximal run). -/
def digits1 : List Char → Option (List Char)
  | [] => none
  | c :: rest => if c.isDigit then some (rest.dropWhile Char.isDigit) else none

/-- archAlt consumes one alternative of the architecture group of
XEN_CAP_REGEX; the six literals are mutually prefix-free, so the POSIX
longest-match rule picks the same alternative. -/
def archAlt (s : List Char) : Option (List Char) :=
  (stripLit "aarch64".toList s).orElse fun _ =>
  (stripLit "armv7l".toList s).orElse fun _ =>
  (stripLit "x86_32".toList s).orElse fun _ =>
  (stripLit "x86_64".toList s).orElse fun _ =>
  (stripLit "ia64".toList s).orElse fun _ =>
  stripLit "powerpc64".toList s

/-- capMatch records where the three capture groups of XEN_CAP_REGEX
start, as the C code only reads the token text from those offsets: hvm1 is
the token tail from group 1, arch2 from group 2, sfx3 from group 3 when
the optional suffix group participated. -/
structure capMatch where
  hvm1 : List Char
  arch2 : List Char
  sfx3 : Option (List Char)
deriving DecidableEq

/-- tryMatchAt attempts to match XEN_CAP_REGEX at the start of s.  Every
quantifier of the pattern is forced (digit runs are maximal before a
non-digit, the alternations are prefix-free, and the optional trailing
group is taken greedily), so this deterministic matcher agrees with the
POSIX leftmost-longest rule. -/
def tryMatchAt (s : List Char) : Option capMatch :=
  ((stripLit "xen".toList s).orElse fun _ => stripLit "hvm".toList s).bind fun r1 =>
  (stripLit ['-'] r1).bind fun r2 =>
  (digits1 r2).bind fun r3 =>
  (stripLit ['.'] r3).bind fun r4 =>
  (digits1 r4).bind fun r5 =>
  (stripLit ['-'] r5).bind fun r6 =>
  (archAlt r6).map fun r7 =>
  { hvm1 := s, arch2 := r6
    sfx3 := if strpfx r7 "p" || strpfx r7 "be" then some r7 else none }

/-- regexecCap models regexec with XEN_CAP_REGEX: the match at the
leftmost position where one exists. -/
def regexecCap : List Char → Option capMatch
  | [] => none
  | c :: rest => (tryMatchAt (c :: rest)).orElse fun _ => regexecCap rest

/-- decodeToken is the per-token decode of lines 264-292: run the regex,
read the virtualization mode from group 1, dispatch on the architecture
literal at group 2 exactly as the STRPREFIX chain does, and derive the
pae, nonpae and ia64_be flags from the optional group 3. -/
def decodeToken (token : List Char) : Option guest_arch :=
  match regexecCap token with
  | none => none
  | some m =>
    let hvm := strpfx m.hvm1 "hvm"
    if strpfx m.arch2 "x86_32" then
      let pae := match m.sfx3 with
        | some s3 => strpfx s3 "p"
        | none => false
      some { arch := .i686, bits := 0, hvm := hvm, pae := pae
             nonpae := !pae, ia64_be := false }
    else if strpfx m.arch2 "x86_64" then
      some { arch := .x86_64, bits := 0, hvm := hvm, pae := false
             nonpae := false, ia64_be := false }
    else if strpfx m.arch2 "ia64" then
      let be := match m.sfx3 with
        | some s3 => strpfx s3 "be"
        | none => false
      some { arch := .itanium, bits := 0, hvm := hvm, pae := false
             nonpae := false, ia64_be := be }
    else if strpfx m.arch2 "powerpc64" then
      some { arch := .ppc64, bits := 0, hvm := hvm, pae := false
             nonpae := false, ia64_be := false }
    else if strpfx m.arch2 "armv7l" then
      some { arch := .armv7l, bits := 0, hvm := hvm, pae := false
             nonpae := false, ia64_be := false }
    else if strpfx m.arch2 "aarch64" then
      some { arch := .aarch64, bits := 0, hvm := hvm, pae := false
             nonpae := false, ia64_be := false }
    else none

/-- zeroGuestArch is a memset-zeroed guest_archs slot; its arch field is a
dead value because both stores at lines 308-309 happen before any read. -/
def zeroGuestArch : guest_arch :=
  { arch := .i686, bits := 0, hvm := false, pae := false, nonpae := false
    ia64_be := false }

/-- mergeArch d writes the decoded token d into a guest_archs slot as
lines 308-320 do: arch and hvm are stored, and each flag is only ever
raised, never cleared. -/
def mergeArch (d : guest_arch) (g : guest_arch) : guest_arch :=
  { g with
    arch := d.arch,
    hvm := d.hvm,
    pae := if d.pae then true else g.pae,
    nonpae := if d.nonpae then true else g.nonpae,
    ia64_be := if d.ia64_be then true else g.ia64_be }

/-- guestArchStep is the loop body after a successful decode (lines
294-320): search for an existing (arch, hvm) slot, i defaulting to
nr_guest_archs; drop the token if i reached the array capacity; append a
fresh slot when no match was found; then write the decoded fields. -/
def guestArchStep (st : List guest_arch) (d : guest_arch) : List guest_arch :=
  let i := (findIdxL (fun g => decide (g.arch = d.arch ∧ g.hvm = d.hvm)) st).getD
    st.length
  if 32 ≤ i then st
  else if i = st.length then st ++ [mergeArch d zeroGuestArch]
  else updAt st i (mergeArch d)

/-- guestArchLoop is the token loop of lines 260-322: stop when 32 slots
are used or the tokens run out, skip tokens the regex rejects, and process
the rest with guestArchStep. -/
def guestArchLoop : List (List Char) → List guest_arch → List guest_arch
  | [], st => st
  | t :: ts, st =>
    if 32 ≤ st.length then st
    else guestArchLoop ts
      (match decodeToken t with
       | none => st
       | some d => guestArchStep st d)

/-- guestMergeUB is the merge policy with the capacity guard removed:
merge into the matching slot or append a new one, unconditionally. -/
def guestMergeUB (st : List guest_arch) (d : guest_arch) : List guest_arch :=
  match findIdxL (fun g => decide (g.arch = d.arch ∧ g.hvm = d.hvm)) st with
  | some i => updAt st i (mergeArch d)
  | none => st ++ [mergeArch d zeroGuestArch]

/-- guestArchFoldUB processes every token with the unbounded merge policy
(no capacity guard, no early loop exit). -/
def guestArchFoldUB (toks : List (List Char)) (st : List guest_arch) :
    List guest_arch :=
  toks.foldl (fun st t =>
    match decodeToken t with
    | none => st
    | some d => guestMergeUB st d) st

/-- guestArchStepNG is guestArchStep with only the in-loop capacity guard
of lines 301-303 removed; the early loop exit is kept in the loop. -/
def guestArchStepNG (st : List guest_arch) (d : guest_arch) : List guest_arch :=
  let i := (findIdxL (fun g => decide (g.arch = d.arch ∧ g.hvm = d.hvm)) st).getD
    st.length
  if i = st.length then st ++ [mergeArch d zeroGuestArch]
  else updAt st i (mergeArch d)

/-- guestArchLoopNG is guestArchLoop with guestArchStepNG as body. -/
def guestArchLoopNG : List (List Char) → List guest_arch → List guest_arch
  | [], st => st
  | t :: ts, st =>
    if 32 ≤ st.length then st
    else guestArchLoopNG ts
      (match decodeToken t with
       | none => st
       | some d => guestArchStepNG st d)

/-- emitGuest is the emission loop body of lines 325-394: machine type,
ostype, fixed emulator binary, HVM-only loader, domain type xen, and the
per-flag plus HVM-only guest features, in source order. -/
def emitGuest (conf : BuildConf) (g : guest_arch) : virCapsGuest :=
  { ostype := if g.hvm then .hvm else .xen
    arch := g.arch
    emulator := conf.execbinDir ++ "/qemu-system-i386"
    loader := if g.hvm then some (conf.fwDir ++ "/hvmloader") else none
    machines := [if g.hvm then "xenfv" else "xenpv"]
    domains := ["xen"]
    features :=
      (if g.pae then [{ name := "pae", defaultOn := true, toggle := false }] else []) ++
      (if g.nonpae then [{ name := "nonpae", defaultOn := true, toggle := false }] else []) ++
      (if g.ia64_be then [{ name := "ia64_be", defaultOn := true, toggle := false }] else []) ++
      (if g.hvm then
        [{ name := "acpi", defaultOn := true, toggle := true },
         { name := "apic", defaultOn := true, toggle := false },
         { name := "hap", defaultOn := true, toggle := true }]
       else []) }

/-- libxlCapsInitGuests: fail if the version info query failed or returned
a NULL capability string, else tokenize the string, fold the tokens into
guest_archs and emit one guest per retained slot in first-seen order. -/
def libxlCapsInitGuests (conf : BuildConf) (ctx : LibxlCtx) (caps : virCaps) :
    Except LibxlError virCaps :=
  match ctx.verinfo with
  | none => .error .VersionQuery
  | some ver =>
    match ver.capabilities with
    | none => .error .CapabilitiesMissing
    | some capstr =>
      let archs := guestArchLoop (strtokSp capstr.toList) []
      .ok { caps with guests := caps.guests ++ archs.map (emitGuest conf) }

/- ---------- libxlMakeCapabilities (lines 399-425) ---------- -/

/-- libxlSeedCaps is the virCapabilitiesNew call under the
LIBXL_HAVE_NO_SUSPEND_RESUME conditional. -/
def libxlSeedCaps (noSuspendResume : Bool) : virCaps :=
  if noSuspendResume then virCapabilitiesNew false false
  else virCapabilitiesNew true true

/-- libxlMakeCapabilities: run the three builders in order; on the first
failure unref the object and return NULL (modelled as none, which drops
every contribution of the completed steps), else return the object. -/
def libxlMakeCapabilities (conf : BuildConf) (noSuspendResume : Bool)
    (ctx : LibxlCtx) : Option virCaps :=
  let caps := libxlSeedCaps noSuspendResume
  match libxlCapsInitHost conf ctx caps with
  | .error _ => none
  | .ok caps =>
    match libxlCapsInitNuma ctx caps with
    | .error _ => none
    | .ok caps =>
      match libxlCapsInitGuests conf ctx caps with
      | .error _ => none
      | .ok caps => some caps

/- ---------- libxlDomainGetEmulatorType (lines 427-458) ---------- -/

/-- Device model versions returned by libxlDomainGetEmulatorType. -/
inductive libxlDeviceModelVersion
  | QEMU_XEN | QEMU_XEN_TRADITIONAL
deriving DecidableEq

/-- LIBXL_QEMU_DM_STR marker of line 427. -/
def LIBXL_QEMU_DM_STR : String := "Options specific to the Xen version:"

/-- Guest definition fields read by libxlDomainGetEmulatorType. -/
structure virDomainDefOs where
  ostype : virDomainOstype
  emulator : Option String

/-- libxlDomainGetEmulatorType: default version unless the guest is HVM
with an emulator that exists on disk, runs with -help successfully, and
whose captured output contains the marker string.  fileExists models
virFileExists and runHelp models virCommandRun capturing stdout (none is
a failed run). -/
def libxlDomainGetEmulatorType (fileExists : String → Bool)
    (runHelp : String → Option String) (dd : virDomainDefOs) :
    libxlDeviceModelVersion :=
  if dd.ostype = .hvm then
    match dd.emulator with
    | none => .QEMU_XEN
    | some emu =>
      if fileExists emu = false then .QEMU_XEN
      else match runHelp emu with
        | none => .QEMU_XEN
        | some out =>
          if containsSub out.toList LIBXL_QEMU_DM_STR.toList then
            .QEMU_XEN_TRADITIONAL
          else .QEMU_XEN
  else .QEMU_XEN

/- ---------- linuxNodeInfoCPUPopulate (nodeinfo.c lines 55-129) ---------- -/

/-- virNodeInfo fields filled by linuxNodeInfoCPUPopulate. -/
structure virNodeInfo where
  cpus : Nat
  mhz : Nat
  nodes : Nat
  sockets : Nat
  cores : Nat
  threads : Nat
deriving DecidableEq

/-- c_isspace from gnulib c-ctype: the six C whitespace characters. -/
def c_isspace (c : Char) : Bool :=
  c = ' ' || c = '\t' || c = '\n' || c = '\x0b' || c = '\x0c' || c = '\r'

/-- dropSpacesL models the while loops that advance buf over whitespace
(the end of the list plays the role of the NUL terminator). -/
def dropSpacesL (l : List Char) : List Char :=
  l.dropWhile c_isspace

/-- digitsVal accumulates a decimal value over a maximal digit run and
returns the rest, as strtoul does after its prologue. -/
def digitsVal (acc : Nat) : List Char → (Nat × List Char)
  | [] => (acc, [])
  | c :: rest =>
    if c.isDigit then digitsVal (acc * 10 + (c.toNat - 48)) rest
    else (acc, c :: rest)

/-- parseUIntL models virStrToLong_ui with base 10: skip whitespace, allow
one leading plus, then require at least one digit (strtoul consuming no
digit makes virStrToLong_ui report failure), and reject a parsed value
that does not fit an unsigned int, as the (unsigned int) val != val and
errno checks do for values of 2^32 and above.  A minus sign is folded
into the failure case: strtoul would wrap it to a huge unsigned long that
the same range check rejects. -/
def parseUIntL (s : List Char) : Option (Nat × List Char) :=
  let s1 := dropSpacesL s
  let s2 := match s1 with
    | '+' :: r => r
    | _ => s1
  match s2 with
  | c :: r =>
    if c.isDigit then
      let v := digitsVal (c.toNat - 48) r
      if v.1 < 4294967296 then some v else none
    else none
  | [] => none

/-- mhzTermOk is the accepted terminator set of the cpu MHz parse: end of
string, a dot (trailing fractional part) or whitespace. -/
def mhzTermOk : List Char → Bool
  | [] => true
  | c :: _ => c = '.' || c_isspace c

/-- coresTermOk is the accepted terminator set of the cpu cores parse: end
of string or whitespace. -/
def coresTermOk : List Char → Bool
  | [] => true
  | c :: _ => c_isspace c

/-- procLine is one iteration of the fgets loop: count processor lines
(after checking the colon), parse cpu MHz into mhz on a clean parse, and
raise cores to a parsed cpu cores value bigger than the current one.  Note
the code advances buf by 9 in all three branches, including the 7
character prefix cpu MHz.  The C colon checks read as: buf starts with a
colon (processor), respectively buf starts with a colon and has a
character after it (cpu MHz and cpu cores, which also check !buf[1]);
parsing then starts at buf+1, here the tail of buf. -/
def procLine (ni : virNodeInfo) (line : List Char) :
    Except String virNodeInfo :=
  if strpfx line "processor" then
    (let buf := dropSpacesL (line.drop 9)
     if strpfx buf ":" then .ok { ni with cpus := ni.cpus + 1 }
     else .error "parsing cpuinfo processor")
  else if strpfx line "cpu MHz" then
    (let buf := dropSpacesL (line.drop 9)
     if strpfx buf ":" ∧ buf.tail ≠ [] then
       match parseUIntL buf.tail with
       | some (ui, p) =>
         if mhzTermOk p then .ok { ni with mhz := ui } else .ok ni
       | none => .ok ni
     else .error "parsing cpuinfo cpu MHz")
  else if strpfx line "cpu cores" then
    (let buf := dropSpacesL (line.drop 9)
     if strpfx buf ":" ∧ buf.tail ≠ [] then
       match parseUIntL buf.tail with
       | some (id, p) =>
         if coresTermOk p ∧ ni.cores < id then .ok { ni with cores := id }
         else .ok ni
       | none => .ok ni
     else .error "parsing cpuinfo cpu cores")
  else .ok ni

/-- cpuinfoLoop folds procLine over the input lines, stopping at the first
error as the C function returns -1. -/
def cpuinfoLoop (ni : virNodeInfo) : List (List Char) →
    Except String virNodeInfo
  | [] => .ok ni
  | l :: ls =>
    match procLine ni l with
    | .error e => .error e
    | .ok ni2 => cpuinfoLoop ni2 ls

/-- virNodeInfoInit is the state after the initializing assignments at
lines 58-60. -/
def virNodeInfoInit : virNodeInfo :=
  { cpus := 0, mhz := 0, nodes := 1, sockets := 1, cores := 1, threads := 1 }

/-- linuxNodeInfoCPUPopulate: run the line loop, fail when no processor
line was counted, else derive sockets as cpus divided by cores. -/
def linuxNodeInfoCPUPopulate (lines : List (List Char)) :
    Except String virNodeInfo :=
  match cpuinfoLoop virNodeInfoInit lines with
  | .error e => .error e
  | .ok ni =>
    if ni.cpus = 0 then .error "no cpus found"
    else .ok { ni with sockets := ni.cpus / ni.cores }

/- ---------- derived notions and concrete inputs used in statements ---------- -/

/-- gaKey is the lookup key of the merge loop: the (arch, hvm) tuple. -/
def gaKey (g : guest_arch) : virArch × Bool := (g.arch, g.hvm)

/-- coreVals collects, in order, the values of the cpu cores lines that
parse cleanly (good colon, good number, good terminator); these are the
values the loop compares against the running cores maximum. -/
def coreVals (lines : List (List Char)) : List Nat :=
  lines.filterMap (fun line =>
    if strpfx line "processor" then none
    else if strpfx line "cpu MHz" then none
    else if strpfx line "cpu cores" then
      (let buf := dropSpacesL (line.drop 9)
       if strpfx buf ":" ∧ buf.tail ≠ [] then
         match parseUIntL buf.tail with
         | some (id, p) => if coresTermOk p then some id else none
         | none => none
       else none)
    else none)

/-- mkGuestCtx builds a context where only the version info query is
answered, the one input libxlCapsInitGuests reads. -/
def mkGuestCtx (c : Option String) : LibxlCtx :=
  { physinfo := none, numainfo := none, cputopo := none
    verinfo := some { capabilities := c } }

/-- mkHostCtx builds a context where only the physinfo query is answered,
the one input libxlCapsInitHost reads. -/
def mkHostCtx (phy : libxl_physinfo) : LibxlCtx :=
  { physinfo := some phy, numainfo := none, cputopo := none, verinfo := none }

/-- mkNumaCtx builds a context where only the two topology queries are
answered, the inputs libxlCapsInitNuma reads. -/
def mkNumaCtx (numa : List Nat) (topo : List libxl_cputopology) : LibxlCtx :=
  { physinfo := none, numainfo := some numa, cputopo := some topo
    verinfo := none }

/-- capStrC1 is the capability string of the worked example. -/
def capStrC1 : String := "xen-3.0-x86_32p xen-3.0-x86_32 hvm-3.0-x86_64"

/-- gaPV is the merged (x86_32, PV) profile the worked example produces. -/
def gaPV : guest_arch :=
  { arch := .i686, bits := 0, hvm := false, pae := true, nonpae := true
    ia64_be := false }

/-- gaHVM is the (x86_64, HVM) profile the worked example produces. -/
def gaHVM : guest_arch :=
  { arch := .x86_64, bits := 0, hvm := true, pae := false, nonpae := false
    ia64_be := false }

/-- mkCpu1 is the CpuInfo created by the first NUMA pass for the CPU with
index it.1 and topology record it.2. -/
def mkCpu1 (it : Nat × libxl_cputopology) : virCapsHostNUMACellCPU :=
  { id := it.1, socket_id := it.2.socket, core_id := it.2.core, siblings := [] }

/-- sibSet n c l is the set of CPU indices the second pass adds to the
siblings bitmap of an entry c that sits in the list of node n: the valid
CPUs of node n sharing the socket and core of c, in index order. -/
def sibSet (n : Nat) (c : virCapsHostNUMACellCPU)
    (l : List (Nat × libxl_cputopology)) : List Nat :=
  (l.filter (fun it => decide (it.2.core ≠ LIBXL_CPUTOPOLOGY_INVALID_ENTRY ∧
    it.2.node = n ∧ c.socket_id = it.2.socket ∧ c.core_id = it.2.core))).map
    (·.1)

/-- addSibs n l c is the final shape of an entry of node n after the
second pass over the records l. -/
def addSibs (n : Nat) (l : List (Nat × libxl_cputopology))
    (c : virCapsHostNUMACellCPU) : virCapsHostNUMACellCPU :=
  { c with siblings := c.siblings ++ sibSet n c l }

/-- confW is a concrete build configuration for witnesses. -/
def confW : BuildConf :=
  { execbinDir := "/usr/lib/xen/bin", fwDir := "/usr/lib/xen/boot"
    netPfx := "vif" }

/-- ctxOkW is a concrete context on which all three builders succeed. -/
def ctxOkW : LibxlCtx :=
  { physinfo := some { hw_cap := [64] }
    numainfo := some [2048]
    cputopo := some [{ core := 0, socket := 0, node := 0 }]
    verinfo := some { capabilities := some "" } }

/-- numaW is a concrete numainfo answer: node 0 valid, node 1 invalid. -/
def numaW : List Nat := [2048, LIBXL_NUMAINFO_INVALID_ENTRY]

/-- topoW is a concrete topology answer: CPUs 0 and 1 are siblings on
node 0, CPU 2 sits on the invalid-size node 1. -/
def topoW : List libxl_cputopology :=
  [{ core := 0, socket := 0, node := 0 },
   { core := 0, socket := 0, node := 0 },
   { core := 1, socket := 1, node := 1 }]

/-- st32W is a scratch array state with all 32 slots used (reachable only
as raw data, not from a parse, which retains at most 12 distinct keys). -/
def st32W : List guest_arch := List.replicate 32 gaPV

/-- niW is the node info linesW produces. -/
def niW : virNodeInfo :=
  { cpus := 2, mhz := 0, nodes := 1, sockets := 1, cores := 2, threads := 1 }

/-- linesW is a concrete cpuinfo input for witnesses. -/
def linesW : List (List Char) :=
  ["processor : 0".toList, "cpu cores : 2".toList, "processor : 1".toList]

/-- capsHost1W is the result of the host step on ctxOkW. -/
def capsHost1W : virCaps :=
  { hostFeatures := ["pae"], netPfx := some "vif", numaCells := []
    guests := [], suspend := true, resume := true }

/-- cellOkW is the single NUMA cell the topology of ctxOkW produces. -/
def cellOkW : virCapsHostNUMACell :=
  { num := 0, mem := 2
    cpus := [{ id := 0, socket_id := 0, core_id := 0, siblings := [0] }] }

/-- capsNuma2W is the result of the NUMA step on ctxOkW after the host
step. -/
def capsNuma2W : virCaps := { capsHost1W with numaCells := [cellOkW] }

/-- cpu0W is the first CPU of the witness topology after both passes. -/
def cpu0W : virCapsHostNUMACellCPU :=
  { id := 0, socket_id := 0, core_id := 0, siblings := [0, 1] }

/-- cpu1W is the second CPU of the witness topology after both passes. -/
def cpu1W : virCapsHostNUMACellCPU :=
  { id := 1, socket_id := 0, core_id := 0, siblings := [0, 1] }

/-- cell0W is the single cell the NUMA builder emits from numaW and
topoW. -/
def cell0W : virCapsHostNUMACell :=
  { num := 0, mem := 2, cpus := [cpu0W, cpu1W] }

/-- capsNumaW is the capability object the NUMA builder produces from
numaW and topoW: one cell for node 0 with the sibling pair, the
invalid-size node 1 dropped. -/
def capsNumaW : virCaps :=
  { virCapsEmpty with numaCells := [cell0W] }

/- ---------- helper lemmas on the list primitives ---------- -/

theorem length_updAt {α : Type} (l : List α) (n : Nat) (f : α → α) :
    (updAt l n f).length = l.length := by
  induction l generalizing n with
  | nil => rfl
  | cons a l ih =>
    cases n with
    | zero => rfl
    | succ m => simp [updAt, ih]

theorem getD_updAt_self {α : Type} (l : List α) (n : Nat) (f : α → α) (d : α)
    (h : n < l.length) : (updAt l n f).getD n d = f (l.getD n d) := by
  induction l generalizing n with
  | nil => simp at h
  | cons a l ih =>
    cases n with
    | zero => rfl
    | succ m =>
      simp only [updAt, List.getD_cons_succ]
      exact ih m (by simpa using h)

theorem getD_updAt_ne {α : Type} (l : List α) (m n : Nat) (f : α → α) (d : α)
    (h : m ≠ n) : (updAt l n f).getD m d = l.getD m d := by
  induction l generalizing m n with
  | nil => rfl
  | cons a l ih =>
    cases n with
    | zero =>
      cases m with
      | zero => exact absurd rfl h
      | succ m2 => rfl
    | succ n2 =>
      cases m with
      | zero => rfl
      | succ m2 =>
        simp only [updAt, List.getD_cons_succ]
        exact ih m2 n2 (fun e => h (by rw [e]))

theorem map_updAt_of_keep {α β : Type} (k : α → β) (f : α → α) (l : List α)
    (i : Nat) (h : ∀ b, l.get? i = some b → k (f b) = k b) :
    (updAt l i f).map k = l.map k := by
  induction l generalizing i with
  | nil => rfl
  | cons a l ih =>
    cases i with
    | zero => simp [updAt, h a rfl]
    | succ m =>
      simp only [updAt, List.map_cons, List.cons.injEq, true_and]
      exact ih m (fun b hb => h b (by simpa using hb))

theorem findIdxL_none {α : Type} {p : α → Bool} {l : List α} :
    findIdxL p l = none ↔ ∀ a ∈ l, p a = false := by
  induction l with
  | nil => simp [findIdxL]
  | cons a l ih =>
    by_cases h : p a
    · simp [findIdxL, h]
    · simp [findIdxL, h, ih]

theorem findIdxL_some {α : Type} {p : α → Bool} {l : List α} {i : Nat}
    (h : findIdxL p l = some i) :
    i < l.length ∧ ∃ a, l.get? i = some a ∧ p a = true := by
  induction l generalizing i with
  | nil => simp [findIdxL] at h
  | cons a l ih =>
    by_cases hp : p a
    · simp [findIdxL, hp] at h
      subst h
      exact ⟨by simp, a, rfl, hp⟩
    · simp [findIdxL, hp] at h
      obtain ⟨j, hj, rfl⟩ := h
      obtain ⟨h1, b, hb, hpb⟩ := ih hj
      exact ⟨by simpa [Nat.succ_lt_succ_iff] using h1, b, by simpa using hb, hpb⟩

theorem mem_enumFromL {α : Type} {l : List α} :
    ∀ {k i : Nat} {x : α},
      (i, x) ∈ enumFromL k l ↔ ∃ j, i = k + j ∧ l.get? j = some x := by
  induction l with
  | nil => intro k i x; simp [enumFromL]
  | cons a l ih =>
    intro k i x
    simp only [enumFromL, List.mem_cons, ih, Prod.mk.injEq]
    constructor
    · rintro (⟨rfl, rfl⟩ | ⟨j, rfl, hj⟩)
      · exact ⟨0, by omega, rfl⟩
      · exact ⟨j + 1, by omega, by simpa using hj⟩
    · rintro ⟨j, rfl, hj⟩
      cases j with
      | zero =>
        left
        simp only [List.get?] at hj
        exact ⟨by omega, (Option.some_inj.1 hj).symm⟩
      | succ j2 =>
        right
        exact ⟨j2, by omega, by simpa using hj⟩

theorem mem_enumFromL_zero {α : Type} {l : List α} {i : Nat} {x : α} :
    (i, x) ∈ enumFromL 0 l ↔ l.get? i = some x := by
  simp [mem_enumFromL]

theorem mem_of_mem_enumFromL {α : Type} {l : List α} {k i : Nat} {x : α}
    (h : (i, x) ∈ enumFromL k l) : x ∈ l := by
  obtain ⟨j, -, hj⟩ := mem_enumFromL.1 h
  exact List.get?_mem hj

/- ---------- guest arch merge loop lemmas ---------- -/

theorem gaKey_mergeArch (d g : guest_arch) :
    gaKey (mergeArch d g) = (d.arch, d.hvm) := rfl

theorem card_archKey : Fintype.card (virArch × Bool) = 12 := by
  simp [Fintype.card_prod]
  rfl

theorem nodup_gaKey_length_le {st : List guest_arch}
    (h : (st.map gaKey).Nodup) : st.length ≤ 12 := by
  have h2 := h.length_le_card
  rw [List.length_map, card_archKey] at h2
  exact h2

theorem guestMergeUB_nodup {st : List guest_arch} {d : guest_arch}
    (h : (st.map gaKey).Nodup) : ((guestMergeUB st d).map gaKey).Nodup := by
  unfold guestMergeUB
  cases hf : findIdxL (fun g => decide (g.arch = d.arch ∧ g.hvm = d.hvm)) st with
  | some i =>
    obtain ⟨hlt, a, ha, hpa⟩ := findIdxL_some hf
    have hkeep : ∀ b, st.get? i = some b → gaKey (mergeArch d b) = gaKey b := by
      intro b hb
      rw [ha] at hb
      cases hb
      have h2 := of_decide_eq_true hpa
      rw [gaKey_mergeArch, gaKey, h2.1, h2.2]
    rw [map_updAt_of_keep gaKey _ st i hkeep]
    exact h
  | none =>
    have hall := findIdxL_none.1 hf
    rw [List.map_append, List.map_cons, List.map_nil, gaKey_mergeArch]
    apply List.Nodup.append h (List.nodup_singleton _)
    intro x hx hx2
    simp only [List.mem_singleton] at hx2
    subst hx2
    obtain ⟨g, hg, hkey⟩ := List.mem_map.1 hx
    have h3 := of_decide_eq_false (hall g hg)
    apply h3
    rw [gaKey] at hkey
    exact ⟨congrArg Prod.fst hkey, congrArg Prod.snd hkey⟩
theorem guestArchStep_eq_UB {st : List guest_arch} {d : guest_arch}
    (h : (st.map gaKey).Nodup) : guestArchStep st d = guestMergeUB st d := by
  have hlen := nodup_gaKey_length_le h
  unfold guestArchStep guestMergeUB
  cases hf : findIdxL (fun g => decide (g.arch = d.arch ∧ g.hvm = d.hvm)) st with
  | some i =>
    obtain ⟨hlt, -⟩ := findIdxL_some hf
    simp only [Option.getD_some]
    rw [if_neg (by omega), if_neg (by omega)]
  | none =>
    simp only [Option.getD_none]
    rw [if_neg (by omega)]
    simp

theorem guestArchStepNG_eq_of_bound {st : List guest_arch} {d : guest_arch}
    (h : st.length < 32) :
    guestArchStep st d = guestArchStepNG st d ∧
    (guestArchStep st d).length ≤ 32 := by
  unfold guestArchStep guestArchStepNG
  cases hf : findIdxL (fun g => decide (g.arch = d.arch ∧ g.hvm = d.hvm)) st with
  | some i =>
    obtain ⟨hlt, -⟩ := findIdxL_some hf
    have h1 : ¬ 32 ≤ i := by omega
    have h2 : ¬ i = st.length := by omega
    simp only [Option.getD_some, if_neg h1, if_neg h2]
    refine ⟨trivial, ?_⟩
    rw [length_updAt]
    omega
  | none =>
    have h1 : ¬ 32 ≤ st.length := by omega
    simp only [Option.getD_none, if_neg h1]
    refine ⟨trivial, ?_⟩
    split
    · rw [List.length_append]
      simp only [List.length_cons, List.length_nil]
      omega
    · rw [length_updAt]
      omega

theorem guestArchFoldUB_cons_none {t : List Char} {ts : List (List Char)}
    {st : List guest_arch} (hd : decodeToken t = none) :
    guestArchFoldUB (t :: ts) st = guestArchFoldUB ts st := by
  show List.foldl _ _ (t :: ts) = _
  rw [List.foldl_cons]
  simp only [hd]
  rfl

theorem guestArchFoldUB_cons_some {t : List Char} {ts : List (List Char)}
    {st : List guest_arch} {d : guest_arch} (hd : decodeToken t = some d) :
    guestArchFoldUB (t :: ts) st = guestArchFoldUB ts (guestMergeUB st d) := by
  show List.foldl _ _ (t :: ts) = _
  rw [List.foldl_cons]
  simp only [hd]
  rfl

theorem guestArchLoop_cons_stop {t : List Char} {ts : List (List Char)}
    {st : List guest_arch} (h32 : 32 ≤ st.length) :
    guestArchLoop (t :: ts) st = st := by
  simp only [guestArchLoop, if_pos h32]

theorem guestArchLoop_cons_none {t : List Char} {ts : List (List Char)}
    {st : List guest_arch} (hd : decodeToken t = none)
    (h32 : ¬ 32 ≤ st.length) :
    guestArchLoop (t :: ts) st = guestArchLoop ts st := by
  simp only [guestArchLoop, if_neg h32, hd]

theorem guestArchLoop_cons_some {t : List Char} {ts : List (List Char)}
    {st : List guest_arch} {d : guest_arch} (hd : decodeToken t = some d)
    (h32 : ¬ 32 ≤ st.length) :
    guestArchLoop (t :: ts) st = guestArchLoop ts (guestArchStep st d) := by
  simp only [guestArchLoop, if_neg h32, hd]

theorem guestArchLoopNG_cons_stop {t : List Char} {ts : List (List Char)}
    {st : List guest_arch} (h32 : 32 ≤ st.length) :
    guestArchLoopNG (t :: ts) st = st := by
  simp only [guestArchLoopNG, if_pos h32]

theorem guestArchLoopNG_cons_none {t : List Char} {ts : List (List Char)}
    {st : List guest_arch} (hd : decodeToken t = none)
    (h32 : ¬ 32 ≤ st.length) :
    guestArchLoopNG (t :: ts) st = guestArchLoopNG ts st := by
  simp only [guestArchLoopNG, if_neg h32, hd]

theorem guestArchLoopNG_cons_some {t : List Char} {ts : List (List Char)}
    {st : List guest_arch} {d : guest_arch} (hd : decodeToken t = some d)
    (h32 : ¬ 32 ≤ st.length) :
    guestArchLoopNG (t :: ts) st = guestArchLoopNG ts (guestArchStepNG st d) := by
  simp only [guestArchLoopNG, if_neg h32, hd]

theorem guestArchFoldUB_nodup :
    ∀ (toks : List (List Char)) (st : List guest_arch),
      (st.map gaKey).Nodup → ((guestArchFoldUB toks st).map gaKey).Nodup := by
  intro toks
  induction toks with
  | nil => intro st h; exact h
  | cons t ts ih =>
    intro st h
    cases hd : decodeToken t with
    | none =>
      rw [guestArchFoldUB_cons_none hd]
      exact ih st h
    | some d =>
      rw [guestArchFoldUB_cons_some hd]
      exact ih _ (guestMergeUB_nodup h)

theorem guestArchLoop_eq_foldUB :
    ∀ (toks : List (List Char)) (st : List guest_arch),
      (st.map gaKey).Nodup → guestArchLoop toks st = guestArchFoldUB toks st := by
  intro toks
  induction toks with
  | nil => intro st h; rfl
  | cons t ts ih =>
    intro st h
    have hlen := nodup_gaKey_length_le h
    have h32 : ¬ 32 ≤ st.length := by omega
    cases hd : decodeToken t with
    | none =>
      rw [guestArchLoop_cons_none hd h32, guestArchFoldUB_cons_none hd]
      exact ih st h
    | some d =>
      rw [guestArchLoop_cons_some hd h32, guestArchFoldUB_cons_some hd,
        guestArchStep_eq_UB h]
      exact ih _ (guestMergeUB_nodup h)

theorem guestArchLoop_NG_bound :
    ∀ (toks : List (List Char)) (st : List guest_arch), st.length ≤ 32 →
      guestArchLoop toks st = guestArchLoopNG toks st ∧
      (guestArchLoop toks st).length ≤ 32 := by
  intro toks
  induction toks with
  | nil => intro st h; exact ⟨rfl, h⟩
  | cons t ts ih =>
    intro st h
    by_cases h32 : 32 ≤ st.length
    · rw [guestArchLoop_cons_stop h32, guestArchLoopNG_cons_stop h32]
      exact ⟨rfl, h⟩
    · cases hd : decodeToken t with
      | none =>
        rw [guestArchLoop_cons_none hd h32, guestArchLoopNG_cons_none hd h32]
        exact ih st h
      | some d =>
        obtain ⟨hng, hb⟩ := @guestArchStepNG_eq_of_bound st d (by omega)
        rw [guestArchLoop_cons_some hd h32, guestArchLoopNG_cons_some hd h32,
          ← hng]
        exact ih _ hb

theorem guestArchLoop_of_all_unmatched :
    ∀ (toks : List (List Char)) (st : List guest_arch),
      (∀ t ∈ toks, decodeToken t = none) → guestArchLoop toks st = st := by
  intro toks
  induction toks with
  | nil => intro st _; rfl
  | cons t ts ih =>
    intro st h
    by_cases h32 : 32 ≤ st.length
    · rw [guestArchLoop_cons_stop h32]
    · rw [guestArchLoop_cons_none (h t (List.mem_cons_self t ts)) h32]
      exact ih st (fun u hu => h u (List.mem_cons_of_mem t hu))

/- ---------- claims about the guest architecture parser ---------- -/

/-- C1: parsing "xen-3.0-x86_32p xen-3.0-x86_32 hvm-3.0-x86_64" produces
exactly two guest capabilities, in first-seen order: an (x86_32, PV) entry
whose pae and nonpae flags are both true and that carries the "pae" and
"nonpae" features, and an (x86_64, HVM) entry carrying the "acpi", "apic"
and "hap" features and a non-empty loaderPath. -/
theorem claim1_worked_example (conf : BuildConf) :
    libxlCapsInitGuests conf (mkGuestCtx (some capStrC1)) virCapsEmpty =
      .ok { virCapsEmpty with
            guests := [emitGuest conf gaPV, emitGuest conf gaHVM] } ∧
    gaPV.arch = .i686 ∧ gaPV.hvm = false ∧ gaPV.pae = true ∧
    gaPV.nonpae = true ∧
    (emitGuest conf gaPV).ostype = .xen ∧
    "pae" ∈ (emitGuest conf gaPV).features.map (fun f => f.name) ∧
    "nonpae" ∈ (emitGuest conf gaPV).features.map (fun f => f.name) ∧
    gaHVM.arch = .x86_64 ∧ gaHVM.hvm = true ∧
    (emitGuest conf gaHVM).ostype = .hvm ∧
    "acpi" ∈ (emitGuest conf gaHVM).features.map (fun f => f.name) ∧
    "apic" ∈ (emitGuest conf gaHVM).features.map (fun f => f.name) ∧
    "hap" ∈ (emitGuest conf gaHVM).features.map (fun f => f.name) ∧
    (emitGuest conf gaHVM).loader = some (conf.fwDir ++ "/hvmloader") ∧
    0 < (conf.fwDir ++ "/hvmloader").length := by
  refine ⟨rfl, rfl, rfl, rfl, rfl, rfl, ?_, ?_, rfl, rfl, rfl, ?_, ?_, ?_,
    rfl, ?_⟩
  · simp [emitGuest, gaPV]
  · simp [emitGuest, gaPV]
  · simp [emitGuest, gaHVM]
  · simp [emitGuest, gaHVM]
  · simp [emitGuest, gaHVM]
  · rw [String.length_append]
    have h10 : ("/hvmloader" : String).length = 10 := rfl
    omega

/-- C2: for every capability string the parser retains at most 32 profiles
with pairwise distinct (arch, hvm) keys; because at most 12 distinct keys
exist, the capacity never binds and the bounded loop computes exactly the
unbounded merge policy; and at the level of the per-token merge step, a
full 32-slot array drops a token with a new key and still merges a token
whose key matches a retained slot. -/
theorem claim2_profile_bound (capstr : String) :
    (guestArchLoop (strtokSp capstr.toList) []).length ≤ 32 ∧
    ((guestArchLoop (strtokSp capstr.toList) []).map gaKey).Nodup ∧
    guestArchLoop (strtokSp capstr.toList) [] =
      guestArchFoldUB (strtokSp capstr.toList) [] ∧
    (∀ (st : List guest_arch) (d : guest_arch) (i : Nat), st.length = 32 →
      findIdxL (fun g => decide (g.arch = d.arch ∧ g.hvm = d.hvm)) st =
        some i →
      guestArchStep st d = updAt st i (mergeArch d)) ∧
    (∀ (st : List guest_arch) (d : guest_arch), st.length = 32 →
      findIdxL (fun g => decide (g.arch = d.arch ∧ g.hvm = d.hvm)) st =
        none →
      guestArchStep st d = st) := by
  have hnd : (([] : List guest_arch).map gaKey).Nodup := List.nodup_nil
  have heq := guestArchLoop_eq_foldUB (strtokSp capstr.toList) [] hnd
  have hnd2 := guestArchFoldUB_nodup (strtokSp capstr.toList) [] hnd
  rw [← heq] at hnd2
  refine ⟨?_, hnd2, heq, ?_, ?_⟩
  · have := nodup_gaKey_length_le hnd2
    omega
  · intro st d i hlen hf
    obtain ⟨hlt, -⟩ := findIdxL_some hf
    unfold guestArchStep
    rw [hf]
    have h1 : ¬ 32 ≤ i := by omega
    have h2 : ¬ i = st.length := by omega
    simp only [Option.getD_some, if_neg h1, if_neg h2]
  · intro st d hlen hf
    unfold guestArchStep
    rw [hf]
    have h1 : 32 ≤ st.length := by omega
    simp only [Option.getD_none, if_pos h1]

/-- Witness for C2: a concrete full 32-slot state on which the step drops
a new (x86_64, HVM) key and merges a matching (x86_32, PV) key. -/
theorem claim2_profile_bound_witness :
    st32W.length = 32 ∧
    guestArchStep st32W gaPV = updAt st32W 0 (mergeArch gaPV) ∧
    guestArchStep st32W gaHVM = st32W :=
  ⟨by decide,
   (claim2_profile_bound "").2.2.2.1 st32W gaPV 0 (by decide) (by decide),
   (claim2_profile_bound "").2.2.2.2 st32W gaHVM (by decide) (by decide)⟩

/-- C5: a NULL capability string from the toolstack is reported as the
capabilities-missing error, while a present but empty string, or one with
no token the pattern accepts, succeeds with zero guest capabilities. -/
theorem claim5_missing_vs_empty (conf : BuildConf) (caps : virCaps)
    (s : String) :
    libxlCapsInitGuests conf (mkGuestCtx none) caps =
      .error .CapabilitiesMissing ∧
    libxlCapsInitGuests conf (mkGuestCtx (some "")) caps = .ok caps ∧
    ((∀ t ∈ strtokSp s.toList, decodeToken t = none) →
      libxlCapsInitGuests conf (mkGuestCtx (some s)) caps = .ok caps) := by
  refine ⟨rfl, ?_, ?_⟩
  · show Except.ok _ = _
    have h0 : guestArchLoop (strtokSp ("".toList)) [] = [] := rfl
    rw [h0]
    simp
  · intro h
    show Except.ok _ = _
    rw [guestArchLoop_of_all_unmatched _ [] h]
    simp

/-- Witness for C5: the string "foo bar" is present but has no matching
token, and parsing it succeeds without adding guests. -/
theorem claim5_missing_vs_empty_witness :
    libxlCapsInitGuests confW (mkGuestCtx (some "foo bar")) virCapsEmpty =
      .ok virCapsEmpty :=
  (claim5_missing_vs_empty confW virCapsEmpty "foo bar").2.2 (by decide)

/-- C9: starting from any state of at most 32 used slots (in particular
the empty initial state), the token loop keeps the profile count within
the 32-entry array bound, and deleting the in-loop capacity guard does not
change its result, because the loop condition already stops pulling tokens
once 32 slots are used; hence that guard branch is unreachable and every
array access stays in bounds. -/
theorem claim9_guard_unreachable (capstr : String) (st : List guest_arch)
    (h : st.length ≤ 32) :
    guestArchLoop (strtokSp capstr.toList) st =
      guestArchLoopNG (strtokSp capstr.toList) st ∧
    (guestArchLoop (strtokSp capstr.toList) st).length ≤ 32 :=
  guestArchLoop_NG_bound (strtokSp capstr.toList) st h

/-- Witness for C9: the worked-example string from the empty state. -/
theorem claim9_guard_unreachable_witness :
    guestArchLoop (strtokSp capStrC1.toList) [] =
      guestArchLoopNG (strtokSp capStrC1.toList) [] ∧
    (guestArchLoop (strtokSp capStrC1.toList) []).length ≤ 32 :=
  claim9_guard_unreachable capStrC1 [] (by decide)

/- ---------- claims C6, C7, C8 ---------- -/

/-- C6: the assembler returns nothing as soon as any of the three build
steps fails, dropping every contribution of the completed steps, and
returns the object produced by the third step when all three succeed. -/
theorem claim6_assembler_rollback (conf : BuildConf) (nsr : Bool)
    (ctx : LibxlCtx) :
    (∀ e, libxlCapsInitHost conf ctx (libxlSeedCaps nsr) = .error e →
      libxlMakeCapabilities conf nsr ctx = none) ∧
    (∀ c1 e, libxlCapsInitHost conf ctx (libxlSeedCaps nsr) = .ok c1 →
      libxlCapsInitNuma ctx c1 = .error e →
      libxlMakeCapabilities conf nsr ctx = none) ∧
    (∀ c1 c2 e, libxlCapsInitHost conf ctx (libxlSeedCaps nsr) = .ok c1 →
      libxlCapsInitNuma ctx c1 = .ok c2 →
      libxlCapsInitGuests conf ctx c2 = .error e →
      libxlMakeCapabilities conf nsr ctx = none) ∧
    (∀ c1 c2 c3, libxlCapsInitHost conf ctx (libxlSeedCaps nsr) = .ok c1 →
      libxlCapsInitNuma ctx c1 = .ok c2 →
      libxlCapsInitGuests conf ctx c2 = .ok c3 →
      libxlMakeCapabilities conf nsr ctx = some c3) := by
  refine ⟨?_, ?_, ?_, ?_⟩
  · intro e h1
    simp only [libxlMakeCapabilities, h1]
  · intro c1 e h1 h2
    simp only [libxlMakeCapabilities, h1, h2]
  · intro c1 c2 e h1 h2 h3
    simp only [libxlMakeCapabilities, h1, h2, h3]
  · intro c1 c2 c3 h1 h2 h3
    simp only [libxlMakeCapabilities, h1, h2, h3]

/-- Witness for C6: on ctxOkW all three steps succeed and the assembler
returns the finished object; with a failed physinfo query it returns
nothing. -/
theorem claim6_assembler_rollback_witness :
    libxlMakeCapabilities confW false ctxOkW = some capsNuma2W ∧
    libxlMakeCapabilities confW false (mkGuestCtx none) = none :=
  ⟨(claim6_assembler_rollback confW false ctxOkW).2.2.2 capsHost1W capsNuma2W
      capsNuma2W rfl rfl rfl,
   (claim6_assembler_rollback confW false (mkGuestCtx none)).1 .HostQuery
      rfl⟩

/-- C7: the emulator classifier returns the default device model version
for non-HVM guests, unset emulator paths, missing emulator binaries and
failed runs; it returns the traditional version exactly when the guest is
HVM, the emulator is set and exists, the run succeeds, and the captured
output contains the marker; it always returns one of the two versions and
never an error. -/
theorem claim7_emulator_probe (fe : String → Bool)
    (run : String → Option String) (dd : virDomainDefOs) :
    (dd.ostype ≠ .hvm → libxlDomainGetEmulatorType fe run dd = .QEMU_XEN) ∧
    (dd.emulator = none → libxlDomainGetEmulatorType fe run dd = .QEMU_XEN) ∧
    (∀ e, dd.emulator = some e → fe e = false →
      libxlDomainGetEmulatorType fe run dd = .QEMU_XEN) ∧
    (∀ e, dd.emulator = some e → run e = none →
      libxlDomainGetEmulatorType fe run dd = .QEMU_XEN) ∧
    (libxlDomainGetEmulatorType fe run dd = .QEMU_XEN_TRADITIONAL ↔
      dd.ostype = .hvm ∧ ∃ e out, dd.emulator = some e ∧ fe e = true ∧
        run e = some out ∧
        containsSub out.toList LIBXL_QEMU_DM_STR.toList = true) ∧
    (libxlDomainGetEmulatorType fe run dd = .QEMU_XEN ∨
      libxlDomainGetEmulatorType fe run dd = .QEMU_XEN_TRADITIONAL) := by
  obtain ⟨ot, em⟩ := dd
  cases ot with
  | xen => simp [libxlDomainGetEmulatorType]
  | hvm =>
    cases em with
    | none => simp [libxlDomainGetEmulatorType]
    | some e =>
      cases hfe : fe e with
      | false => simp [libxlDomainGetEmulatorType, hfe]
      | true =>
        cases hrun : run e with
        | none => simp [libxlDomainGetEmulatorType, hfe, hrun]
        | some out =>
          cases hsub : containsSub out.toList LIBXL_QEMU_DM_STR.toList with
          | false => simp [libxlDomainGetEmulatorType, hfe, hrun, hsub]
          | true => simp [libxlDomainGetEmulatorType, hfe, hrun, hsub]

/-- Witness for C7: a marker-carrying help output yields the traditional
version; a failed run and a PV guest yield the default. -/
theorem claim7_emulator_probe_witness :
    libxlDomainGetEmulatorType (fun _ => true)
      (fun _ => some LIBXL_QEMU_DM_STR)
      { ostype := .hvm, emulator := some "/qemu-dm" } =
        .QEMU_XEN_TRADITIONAL ∧
    libxlDomainGetEmulatorType (fun _ => true) (fun _ => none)
      { ostype := .hvm, emulator := some "/qemu-dm" } = .QEMU_XEN ∧
    libxlDomainGetEmulatorType (fun _ => false) (fun _ => none)
      { ostype := .xen, emulator := none } = .QEMU_XEN :=
  ⟨(claim7_emulator_probe (fun _ => true) (fun _ => some LIBXL_QEMU_DM_STR)
      { ostype := .hvm, emulator := some "/qemu-dm" }).2.2.2.2.1.mpr
      ⟨rfl, "/qemu-dm", LIBXL_QEMU_DM_STR, rfl, rfl, rfl, by decide⟩,
   (claim7_emulator_probe (fun _ => true) (fun _ => none)
      { ostype := .hvm, emulator := some "/qemu-dm" }).2.2.2.1 "/qemu-dm"
      rfl rfl,
   (claim7_emulator_probe (fun _ => false) (fun _ => none)
      { ostype := .xen, emulator := none }).1 (by decide)⟩

/-- C8: on a fresh capability object, the host probe succeeds for every
physinfo answer and records the "pae" host feature exactly when bit 6
(mask 0x40) of the first hw_cap word is set; with the bit clear the
feature set does not contain "pae". -/
theorem claim8_pae_bit (conf : BuildConf) (phy : libxl_physinfo) :
    ∃ c, libxlCapsInitHost conf (mkHostCtx phy) virCapsEmpty = .ok c ∧
      ("pae" ∈ c.hostFeatures ↔
        (phy.hw_cap.getD 0 0) &&& LIBXL_X86_FEATURE_PAE_MASK ≠ 0) ∧
      ((phy.hw_cap.getD 0 0) &&& LIBXL_X86_FEATURE_PAE_MASK ≠ 0 ↔
        (phy.hw_cap.getD 0 0).testBit 6) := by
  have hbit : (phy.hw_cap.getD 0 0) &&& LIBXL_X86_FEATURE_PAE_MASK ≠ 0 ↔
      (phy.hw_cap.getD 0 0).testBit 6 := by
    simp only [LIBXL_X86_FEATURE_PAE_MASK]
    rw [show (0x40 : Nat) = 2 ^ 6 by norm_num, Nat.and_two_pow]
    cases h : (phy.hw_cap.getD 0 0).testBit 6 <;> simp
  by_cases hp : (phy.hw_cap.getD 0 0) &&& LIBXL_X86_FEATURE_PAE_MASK ≠ 0
  · refine ⟨{ hostFeatures := ["pae"], netPfx := some conf.netPfx,
              numaCells := [], guests := [], suspend := true,
              resume := true },
      ?_, ?_, hbit⟩
    · simp only [libxlCapsInitHost, mkHostCtx, if_pos hp]
      simp [virCapsEmpty, virCapabilitiesNew]
    · exact ⟨fun _ => hp, fun _ => List.mem_singleton.2 rfl⟩
  · refine ⟨{ hostFeatures := [], netPfx := some conf.netPfx,
              numaCells := [], guests := [], suspend := true,
              resume := true },
      ?_, ?_, hbit⟩
    · simp only [libxlCapsInitHost, mkHostCtx, if_neg hp]
      simp [virCapsEmpty, virCapabilitiesNew]
    · exact ⟨fun h => absurd h (List.not_mem_nil _), fun h => absurd h hp⟩

/- ---------- NUMA builder lemmas ---------- -/

theorem length_foldl_numaPass1 :
    ∀ (l : List (Nat × libxl_cputopology))
      (st : List (List virCapsHostNUMACellCPU)),
      (l.foldl numaPass1Step st).length = st.length := by
  intro l
  induction l with
  | nil => intro st; rfl
  | cons a l ih =>
    intro st
    rw [List.foldl_cons, ih]
    unfold numaPass1Step
    split
    · rfl
    · exact length_updAt _ _ _

theorem length_foldl_numaPass2 :
    ∀ (l : List (Nat × libxl_cputopology))
      (st : List (List virCapsHostNUMACellCPU)),
      (l.foldl numaPass2Step st).length = st.length := by
  intro l
  induction l with
  | nil => intro st; rfl
  | cons a l ih =>
    intro st
    rw [List.foldl_cons, ih]
    unfold numaPass2Step
    split
    · rfl
    · exact length_updAt _ _ _

theorem pass1_getD :
    ∀ (l : List (Nat × libxl_cputopology))
      (st : List (List virCapsHostNUMACellCPU)) (n : Nat),
      (∀ it ∈ l, it.2.node < st.length) →
      (l.foldl numaPass1Step st).getD n [] =
        st.getD n [] ++
          (l.filter (fun it =>
            decide (it.2.core ≠ LIBXL_CPUTOPOLOGY_INVALID_ENTRY ∧
              it.2.node = n))).map mkCpu1 := by
  intro l
  induction l with
  | nil => intro st n _; simp
  | cons a l ih =>
    intro st n h
    have htail : ∀ it ∈ l, it.2.node < st.length :=
      fun it hit => h it (List.mem_cons_of_mem a hit)
    rw [List.foldl_cons, List.filter_cons]
    by_cases hc : a.2.core = LIBXL_CPUTOPOLOGY_INVALID_ENTRY
    · have hstep : numaPass1Step st a = st := by
        unfold numaPass1Step
        rw [if_pos hc]
      have hcond : decide (a.2.core ≠ LIBXL_CPUTOPOLOGY_INVALID_ENTRY ∧
          a.2.node = n) = false := by simp [hc]
      rw [hstep, hcond]
      simp only [Bool.false_eq_true, if_false]
      exact ih st n htail
    · have hstep : numaPass1Step st a =
          updAt st a.2.node (fun cs => cs ++ [mkCpu1 a]) := by
        unfold numaPass1Step
        rw [if_neg hc]
        rfl
      have hlen2 : ∀ it ∈ l, it.2.node <
          (updAt st a.2.node (fun cs => cs ++ [mkCpu1 a])).length := by
        intro it hit
        rw [length_updAt]
        exact htail it hit
      by_cases hn : a.2.node = n
      · subst hn
        have hlt : a.2.node < st.length := h a (List.mem_cons_self a l)
        have hcond : decide (a.2.core ≠ LIBXL_CPUTOPOLOGY_INVALID_ENTRY ∧
            a.2.node = a.2.node) = true := by simp [hc]
        rw [hstep, hcond, ih _ _ hlen2,
          getD_updAt_self st a.2.node _ [] hlt]
        simp [List.append_assoc]
      · have hcond : decide (a.2.core ≠ LIBXL_CPUTOPOLOGY_INVALID_ENTRY ∧
            a.2.node = n) = false := by simp [hn]
        rw [hstep, hcond, ih _ _ hlen2,
          getD_updAt_ne st n a.2.node _ [] (fun e => hn e.symm)]
        simp only [Bool.false_eq_true, if_false]

theorem sibSet_siblings_irrel (n : Nat) (c : virCapsHostNUMACellCPU)
    (x : List Nat) (l : List (Nat × libxl_cputopology)) :
    sibSet n { c with siblings := x } l = sibSet n c l := rfl

theorem pass2_getD :
    ∀ (l : List (Nat × libxl_cputopology))
      (st : List (List virCapsHostNUMACellCPU)) (n : Nat),
      (∀ it ∈ l, it.2.node < st.length) →
      (l.foldl numaPass2Step st).getD n [] =
        (st.getD n []).map (addSibs n l) := by
  intro l
  induction l with
  | nil =>
    intro st n _
    have hid : ∀ c, addSibs n ([] : List (Nat × libxl_cputopology)) c = c := by
      intro c
      simp [addSibs, sibSet]
    rw [List.foldl_nil]
    rw [show (st.getD n []).map (addSibs n []) = st.getD n [] from
      (List.map_congr_left (fun c _ => hid c)).trans (List.map_id _)]
  | cons a l ih =>
    intro st n h
    have htail : ∀ it ∈ l, it.2.node < st.length :=
      fun it hit => h it (List.mem_cons_of_mem a hit)
    rw [List.foldl_cons]
    by_cases hc : a.2.core = LIBXL_CPUTOPOLOGY_INVALID_ENTRY
    · have hstep : numaPass2Step st a = st := by
        unfold numaPass2Step
        rw [if_pos hc]
      rw [hstep, ih st n htail]
      apply List.map_congr_left
      intro c _
      simp [addSibs, sibSet, List.filter_cons, hc]
    · have hstep : numaPass2Step st a = updAt st a.2.node (fun cs =>
          cs.map (fun c =>
            if c.socket_id = a.2.socket ∧ c.core_id = a.2.core then
              { c with siblings := c.siblings ++ [a.1] }
            else c)) := by
        unfold numaPass2Step
        rw [if_neg hc]
      have hlen2 : ∀ it ∈ l, it.2.node < (updAt st a.2.node (fun cs =>
          cs.map (fun c =>
            if c.socket_id = a.2.socket ∧ c.core_id = a.2.core then
              { c with siblings := c.siblings ++ [a.1] }
            else c))).length := by
        intro it hit
        rw [length_updAt]
        exact htail it hit
      by_cases hn : a.2.node = n
      · subst hn
        have hlt : a.2.node < st.length := h a (List.mem_cons_self a l)
        rw [hstep, ih _ _ hlen2, getD_updAt_self st a.2.node _ [] hlt,
          List.map_map]
        apply List.map_congr_left
        intro c _
        by_cases hm : c.socket_id = a.2.socket ∧ c.core_id = a.2.core
        · simp only [Function.comp_apply, if_pos hm]
          simp [addSibs, sibSet_siblings_irrel, sibSet, List.filter_cons,
            hc, hm, List.append_assoc]
        · simp only [Function.comp_apply, if_neg hm]
          simp only [addSibs, sibSet, List.filter_cons]
          split
          · rename_i hx
            exact absurd ⟨(of_decide_eq_true hx).2.2.1,
              (of_decide_eq_true hx).2.2.2⟩ hm
          · rfl
      · rw [hstep, ih _ _ hlen2,
          getD_updAt_ne st n a.2.node _ [] (fun e => hn e.symm)]
        apply List.map_congr_left
        intro c _
        simp only [addSibs, sibSet, List.filter_cons]
        split
        · rename_i hx
          exact absurd (of_decide_eq_true hx).2.1 hn
        · rfl

theorem getD_replicate_nil {α : Type} :
    ∀ (k n : Nat), (List.replicate k ([] : List α)).getD n [] = [] := by
  intro k
  induction k with
  | zero => intro n; cases n <;> rfl
  | succ m ih =>
    intro n
    cases n with
    | zero => rfl
    | succ n2 =>
      simp only [List.replicate_succ, List.getD_cons_succ]
      exact ih n2

theorem mem_numaCellsOf {numa : List Nat}
    {cpus : List (List virCapsHostNUMACellCPU)} {cell : virCapsHostNUMACell} :
    cell ∈ numaCellsOf numa cpus ↔
      ∃ n sz, (n, sz) ∈ enumFromL 0 numa ∧
        sz ≠ LIBXL_NUMAINFO_INVALID_ENTRY ∧
        cell = { num := n, mem := sz / 1024, cpus := cpus.getD n [] } := by
  unfold numaCellsOf
  rw [List.mem_filterMap]
  constructor
  · rintro ⟨it, hit, hf⟩
    by_cases h : it.2 = LIBXL_NUMAINFO_INVALID_ENTRY
    · rw [if_pos h] at hf
      cases hf
    · rw [if_neg h] at hf
      exact ⟨it.1, it.2, hit, h, (Option.some_inj.1 hf).symm⟩
  · rintro ⟨n, sz, hmem, hne, rfl⟩
    exact ⟨(n, sz), hmem, by rw [if_neg hne]⟩

theorem initNuma_ok_shape {numa : List Nat} {topo : List libxl_cputopology}
    {caps caps2 : virCaps}
    (h : libxlCapsInitNuma (mkNumaCtx numa topo) caps = .ok caps2) :
    caps2 = { caps with numaCells := caps.numaCells ++
                numaCellsOf numa ((enumFromL 0 topo).foldl numaPass2Step
                  ((enumFromL 0 topo).foldl numaPass1Step
                    (List.replicate numa.length []))) } := by
  simp only [libxlCapsInitNuma, mkNumaCtx] at h
  by_cases h1 : numa.length = 0
  · rw [if_pos h1] at h
    cases h
  · rw [if_neg h1] at h
    by_cases h2 : topo.length = 0
    · rw [if_pos h2] at h
      cases h
    · rw [if_neg h2] at h
      simp only [Except.ok.injEq] at h
      exact h.symm

theorem mem_sibSet {topo : List libxl_cputopology} {n : Nat}
    {c : virCapsHostNUMACellCPU} {j : Nat} :
    j ∈ sibSet n c (enumFromL 0 topo) ↔
      ∃ u, topo.get? j = some u ∧
        u.core ≠ LIBXL_CPUTOPOLOGY_INVALID_ENTRY ∧ u.node = n ∧
        c.socket_id = u.socket ∧ c.core_id = u.core := by
  unfold sibSet
  rw [List.mem_map]
  constructor
  · rintro ⟨it, hit, rfl⟩
    rw [List.mem_filter] at hit
    obtain ⟨hmem, hcond⟩ := hit
    have hc := of_decide_eq_true hcond
    refine ⟨it.2, ?_, hc.1, hc.2.1, hc.2.2.1, hc.2.2.2⟩
    exact mem_enumFromL_zero.1 hmem
  · rintro ⟨u, hu, h1, h2, h3, h4⟩
    exact ⟨(j, u), List.mem_filter.2 ⟨mem_enumFromL_zero.2 hu,
      decide_eq_true ⟨h1, h2, h3, h4⟩⟩, rfl⟩

theorem mem_sibSet_entry {topo : List libxl_cputopology} {n : Nat}
    {c : virCapsHostNUMACellCPU} {j : Nat} {u : libxl_cputopology}
    (hu : topo.get? j = some u) :
    (j ∈ sibSet n c (enumFromL 0 topo)) ↔
      (u.core ≠ LIBXL_CPUTOPOLOGY_INVALID_ENTRY ∧ u.node = n ∧
       c.socket_id = u.socket ∧ c.core_id = u.core) := by
  rw [mem_sibSet]
  constructor
  · rintro ⟨v, hv, h1, h2, h3, h4⟩
    cases Option.some_inj.1 (hu.symm.trans hv)
    exact ⟨h1, h2, h3, h4⟩
  · intro h
    exact ⟨u, hu, h.1, h.2.1, h.2.2.1, h.2.2.2⟩

theorem mem_node_entries {numa : List Nat} {topo : List libxl_cputopology}
    (hwf : ∀ t ∈ topo, t.node < numa.length) {n : Nat}
    {A : virCapsHostNUMACellCPU} :
    A ∈ (((enumFromL 0 topo).foldl numaPass2Step
        ((enumFromL 0 topo).foldl numaPass1Step
          (List.replicate numa.length []))).getD n []) ↔
      ∃ it, it ∈ enumFromL 0 topo ∧
        it.2.core ≠ LIBXL_CPUTOPOLOGY_INVALID_ENTRY ∧ it.2.node = n ∧
        A = addSibs n (enumFromL 0 topo) (mkCpu1 it) := by
  have hn1 : ∀ it ∈ enumFromL 0 topo, it.2.node <
      (List.replicate numa.length
        ([] : List virCapsHostNUMACellCPU)).length := by
    intro it hit
    rw [List.length_replicate]
    exact hwf it.2 (mem_of_mem_enumFromL hit)
  have hn2 : ∀ it ∈ enumFromL 0 topo, it.2.node <
      ((enumFromL 0 topo).foldl numaPass1Step
        (List.replicate numa.length [])).length := by
    intro it hit
    rw [length_foldl_numaPass1]
    exact hn1 it hit
  rw [pass2_getD _ _ _ hn2, pass1_getD _ _ _ hn1, getD_replicate_nil,
    List.nil_append, List.map_map, List.mem_map]
  constructor
  · rintro ⟨it, hit, rfl⟩
    rw [List.mem_filter] at hit
    obtain ⟨hmem, hcond⟩ := hit
    have hc := of_decide_eq_true hcond
    exact ⟨it, hmem, hc.1, hc.2, rfl⟩
  · rintro ⟨it, hmem, hc1, hc2, rfl⟩
    exact ⟨it, List.mem_filter.2 ⟨hmem, decide_eq_true ⟨hc1, hc2⟩⟩, rfl⟩

theorem getD_of_get? {α : Type} :
    ∀ (l : List α) (n : Nat) (a d : α), l.get? n = some a → l.getD n d = a := by
  intro l
  induction l with
  | nil => intro n a d h; cases n <;> cases h
  | cons x l ih =>
    intro n a d h
    cases n with
    | zero =>
      cases h
      rfl
    | succ m => exact ih m a d (by simpa using h)

theorem lt_of_get?_eq_some {α : Type} :
    ∀ (l : List α) (n : Nat) (a : α), l.get? n = some a → n < l.length := by
  intro l
  induction l with
  | nil => intro n a h; cases n <;> cases h
  | cons x l ih =>
    intro n a h
    cases n with
    | zero => simp
    | succ m =>
      have := ih m a (by simpa using h)
      simpa [Nat.succ_lt_succ_iff] using this

theorem get?_eq_some_of_lt {α : Type} :
    ∀ (l : List α) (n : Nat), n < l.length → ∃ a, l.get? n = some a := by
  intro l
  induction l with
  | nil => intro n h; simp at h
  | cons x l ih =>
    intro n h
    cases n with
    | zero => exact ⟨x, rfl⟩
    | succ m =>
      obtain ⟨a, ha⟩ := ih m (by simpa [Nat.succ_lt_succ_iff] using h)
      exact ⟨a, by simpa using ha⟩

/- ---------- claims about the NUMA topology builder ---------- -/

/-- C3: in every successful run of the NUMA builder on in-range topology
records, sibling sets are symmetric, CPU ids appear in a sibling set of
another CPU only when the two share node, socket and core, and every CPU
contains its own id in its siblings set. -/
theorem claim3_sibling_symmetry (numa : List Nat)
    (topo : List libxl_cputopology) (caps2 : virCaps)
    (hwf : ∀ t ∈ topo, t.node < numa.length)
    (hok : libxlCapsInitNuma (mkNumaCtx numa topo) virCapsEmpty = .ok caps2) :
    ∀ cA ∈ caps2.numaCells, ∀ A ∈ cA.cpus,
      A.id ∈ A.siblings ∧
      ∀ cB ∈ caps2.numaCells, ∀ B ∈ cB.cpus,
        ((A.id ∈ B.siblings ↔ B.id ∈ A.siblings) ∧
         (A.id ∈ B.siblings →
           cA.num = cB.num ∧ A.socket_id = B.socket_id ∧
           A.core_id = B.core_id)) := by
  have hcells : caps2.numaCells = numaCellsOf numa
      ((enumFromL 0 topo).foldl numaPass2Step
        ((enumFromL 0 topo).foldl numaPass1Step
          (List.replicate numa.length []))) := by
    rw [initNuma_ok_shape hok]
    simp [virCapsEmpty, virCapabilitiesNew]
  intro cA hcA A hA
  rw [hcells, mem_numaCellsOf] at hcA
  obtain ⟨nA, szA, hmemA, hneA, rfl⟩ := hcA
  have hA2 : A ∈ (((enumFromL 0 topo).foldl numaPass2Step
      ((enumFromL 0 topo).foldl numaPass1Step
        (List.replicate numa.length []))).getD nA []) := hA
  rw [mem_node_entries hwf] at hA2
  obtain ⟨itA, hitA, hcoreA, hnodeA, rfl⟩ := hA2
  have hgetA : topo.get? itA.1 = some itA.2 := mem_enumFromL_zero.1 hitA
  refine ⟨?_, ?_⟩
  · show itA.1 ∈ sibSet nA (mkCpu1 itA) (enumFromL 0 topo)
    rw [mem_sibSet_entry hgetA]
    exact ⟨hcoreA, hnodeA, rfl, rfl⟩
  · intro cB hcB B hB
    rw [hcells, mem_numaCellsOf] at hcB
    obtain ⟨nB, szB, hmemB, hneB, rfl⟩ := hcB
    have hB2 : B ∈ (((enumFromL 0 topo).foldl numaPass2Step
        ((enumFromL 0 topo).foldl numaPass1Step
          (List.replicate numa.length []))).getD nB []) := hB
    rw [mem_node_entries hwf] at hB2
    obtain ⟨itB, hitB, hcoreB, hnodeB, rfl⟩ := hB2
    have hgetB : topo.get? itB.1 = some itB.2 := mem_enumFromL_zero.1 hitB
    have e1 : ((addSibs nA (enumFromL 0 topo) (mkCpu1 itA)).id ∈
        (addSibs nB (enumFromL 0 topo) (mkCpu1 itB)).siblings) ↔
        (itA.2.node = nB ∧ itB.2.socket = itA.2.socket ∧
         itB.2.core = itA.2.core) := by
      show (itA.1 ∈ sibSet nB (mkCpu1 itB) (enumFromL 0 topo)) ↔ _
      rw [mem_sibSet_entry hgetA]
      constructor
      · rintro ⟨-, h2, h3, h4⟩
        exact ⟨h2, h3, h4⟩
      · rintro ⟨h2, h3, h4⟩
        exact ⟨hcoreA, h2, h3, h4⟩
    have e2 : ((addSibs nB (enumFromL 0 topo) (mkCpu1 itB)).id ∈
        (addSibs nA (enumFromL 0 topo) (mkCpu1 itA)).siblings) ↔
        (itB.2.node = nA ∧ itA.2.socket = itB.2.socket ∧
         itA.2.core = itB.2.core) := by
      show (itB.1 ∈ sibSet nA (mkCpu1 itA) (enumFromL 0 topo)) ↔ _
      rw [mem_sibSet_entry hgetB]
      constructor
      · rintro ⟨-, h2, h3, h4⟩
        exact ⟨h2, h3, h4⟩
      · rintro ⟨h2, h3, h4⟩
        exact ⟨hcoreB, h2, h3, h4⟩
    constructor
    · rw [e1, e2]
      constructor
      · rintro ⟨h2, h3, h4⟩
        refine ⟨by omega, by omega, by omega⟩
      · rintro ⟨h2, h3, h4⟩
        refine ⟨by omega, by omega, by omega⟩
    · intro hm
      rw [e1] at hm
      obtain ⟨h2, h3, h4⟩ := hm
      refine ⟨show nA = nB by omega, show itA.2.socket = itB.2.socket by omega,
        show itA.2.core = itB.2.core by omega⟩

/-- C4: a successful NUMA build emits exactly one cell per node whose
reported size is not the invalid sentinel, with memory equal to the size
divided by 1024, and every CPU of every emitted cell belongs to a node
with a valid size. -/
theorem claim4_cells_exact (numa : List Nat) (topo : List libxl_cputopology)
    (caps2 : virCaps) (hwf : ∀ t ∈ topo, t.node < numa.length)
    (hok : libxlCapsInitNuma (mkNumaCtx numa topo) virCapsEmpty = .ok caps2) :
    (∀ n, n < numa.length →
      ((∃ cell ∈ caps2.numaCells, cell.num = n) ↔
        numa.getD n 0 ≠ LIBXL_NUMAINFO_INVALID_ENTRY)) ∧
    (∀ cell ∈ caps2.numaCells,
      cell.num < numa.length ∧
      numa.getD cell.num 0 ≠ LIBXL_NUMAINFO_INVALID_ENTRY ∧
      cell.mem = numa.getD cell.num 0 / 1024 ∧
      ∀ c ∈ cell.cpus, ∃ t, topo.get? c.id = some t ∧
        t.node = cell.num ∧
        numa.getD t.node 0 ≠ LIBXL_NUMAINFO_INVALID_ENTRY) := by
  have hcells : caps2.numaCells = numaCellsOf numa
      ((enumFromL 0 topo).foldl numaPass2Step
        ((enumFromL 0 topo).foldl numaPass1Step
          (List.replicate numa.length []))) := by
    rw [initNuma_ok_shape hok]
    simp [virCapsEmpty, virCapabilitiesNew]
  constructor
  · intro n hn
    rw [hcells]
    constructor
    · rintro ⟨cell, hcell, hnum⟩
      rw [mem_numaCellsOf] at hcell
      obtain ⟨n2, sz, hmem, hne, rfl⟩ := hcell
      have hn2 : n2 = n := hnum
      subst hn2
      have hget : numa.get? n2 = some sz := mem_enumFromL_zero.1 hmem
      rw [getD_of_get? numa n2 sz 0 hget]
      exact hne
    · intro hne
      obtain ⟨sz, hget⟩ := get?_eq_some_of_lt numa n hn
      have hgd : numa.getD n 0 = sz := getD_of_get? numa n sz 0 hget
      refine ⟨{ num := n, mem := sz / 1024,
                cpus := ((enumFromL 0 topo).foldl numaPass2Step
                  ((enumFromL 0 topo).foldl numaPass1Step
                    (List.replicate numa.length []))).getD n [] }, ?_, rfl⟩
      rw [mem_numaCellsOf]
      refine ⟨n, sz, mem_enumFromL_zero.2 hget, ?_, rfl⟩
      rw [← hgd]
      exact hne
  · intro cell hcell
    rw [hcells, mem_numaCellsOf] at hcell
    obtain ⟨n, sz, hmem, hne, rfl⟩ := hcell
    have hget : numa.get? n = some sz := mem_enumFromL_zero.1 hmem
    have hlt : n < numa.length := lt_of_get?_eq_some numa n sz hget
    have hgd : numa.getD n 0 = sz := getD_of_get? numa n sz 0 hget
    refine ⟨hlt, ?_, ?_, ?_⟩
    · rw [hgd]
      exact hne
    · rw [hgd]
    · intro c hc
      have hc2 : c ∈ (((enumFromL 0 topo).foldl numaPass2Step
          ((enumFromL 0 topo).foldl numaPass1Step
            (List.replicate numa.length []))).getD n []) := hc
      rw [mem_node_entries hwf] at hc2
      obtain ⟨it, hit, hcore, hnode, rfl⟩ := hc2
      refine ⟨it.2, mem_enumFromL_zero.1 hit, hnode, ?_⟩
      rw [hnode, hgd]
      exact hne

/-- Witness for C3: the concrete two-node topology, with the sibling pair
on node 0. -/
theorem claim3_sibling_symmetry_witness :
    cpu0W.id ∈ cpu0W.siblings ∧
    (cpu0W.id ∈ cpu1W.siblings ↔ cpu1W.id ∈ cpu0W.siblings) ∧
    (cpu0W.id ∈ cpu1W.siblings →
      cell0W.num = cell0W.num ∧ cpu0W.socket_id = cpu1W.socket_id ∧
      cpu0W.core_id = cpu1W.core_id) := by
  have h := claim3_sibling_symmetry numaW topoW capsNumaW (by decide) rfl
    cell0W (by decide) cpu0W (by decide)
  exact ⟨h.1, (h.2 cell0W (by decide) cpu1W (by decide)).1,
    (h.2 cell0W (by decide) cpu1W (by decide)).2⟩

/-- Witness for C4: on the concrete input, node 0 has a cell and the
invalid node 1 has none, with the converted memory value. -/
theorem claim4_cells_exact_witness :
    ((∃ cell ∈ capsNumaW.numaCells, cell.num = 0) ↔
      numaW.getD 0 0 ≠ LIBXL_NUMAINFO_INVALID_ENTRY) ∧
    ((∃ cell ∈ capsNumaW.numaCells, cell.num = 1) ↔
      numaW.getD 1 0 ≠ LIBXL_NUMAINFO_INVALID_ENTRY) ∧
    (cell0W.num < numaW.length ∧
      numaW.getD cell0W.num 0 ≠ LIBXL_NUMAINFO_INVALID_ENTRY ∧
      cell0W.mem = numaW.getD cell0W.num 0 / 1024 ∧
      ∀ c ∈ cell0W.cpus, ∃ t, topoW.get? c.id = some t ∧
        t.node = cell0W.num ∧
        numaW.getD t.node 0 ≠ LIBXL_NUMAINFO_INVALID_ENTRY) := by
  have h := claim4_cells_exact numaW topoW capsNumaW (by decide) rfl
  exact ⟨h.1 0 (by decide), h.1 1 (by decide), h.2 cell0W (by decide)⟩

/- ---------- cpuinfo populator lemmas ---------- -/

theorem le_foldl_max : ∀ (l : List Nat) (a : Nat), a ≤ l.foldl max a := by
  intro l
  induction l with
  | nil => intro a; exact Nat.le_refl a
  | cons x l ih =>
    intro a
    rw [List.foldl_cons]
    exact Nat.le_trans (Nat.le_max_left a x) (ih (max a x))

theorem cpuinfoLoop_ok_char :
    ∀ (lines : List (List Char)) (ni ni2 : virNodeInfo),
      cpuinfoLoop ni lines = .ok ni2 →
      ni2.cpus = ni.cpus + lines.countP (fun l => strpfx l "processor") ∧
      ni2.cores = (coreVals lines).foldl max ni.cores ∧
      ni2.nodes = ni.nodes ∧ ni2.threads = ni.threads ∧
      ni2.sockets = ni.sockets := by
  intro lines
  induction lines with
  | nil =>
    intro ni ni2 h
    cases h
    simp [coreVals]
  | cons l ls ih =>
    intro ni ni2 h
    by_cases hp1 : strpfx l "processor"
    · -- processor line
      have hcnt : (l :: ls).countP (fun u => strpfx u "processor") =
          ls.countP (fun u => strpfx u "processor") + 1 := by
        rw [List.countP_cons, if_pos hp1]
      have hvals : coreVals (l :: ls) = coreVals ls := by
        simp [coreVals, List.filterMap_cons, hp1]
      by_cases hcol : strpfx (dropSpacesL (l.drop 9)) ":"
      · have hstep : procLine ni l = .ok { ni with cpus := ni.cpus + 1 } := by
          simp only [procLine, if_pos hp1, if_pos hcol]
        simp only [cpuinfoLoop, hstep] at h
        obtain ⟨h1, h2, h3, h4, h5⟩ := ih _ _ h
        rw [hcnt, hvals]
        exact ⟨by simp only [h1]; omega, h2, h3, h4, h5⟩
      · have hstep : procLine ni l = .error "parsing cpuinfo processor" := by
          simp only [procLine, if_pos hp1, if_neg hcol]
        simp only [cpuinfoLoop, hstep] at h
        cases h
    · have hcnt : (l :: ls).countP (fun u => strpfx u "processor") =
          ls.countP (fun u => strpfx u "processor") := by
        simp [List.countP_cons, hp1]
      by_cases hp2 : strpfx l "cpu MHz"
      · -- cpu MHz line
        have hvals : coreVals (l :: ls) = coreVals ls := by
          simp [coreVals, List.filterMap_cons, hp1, hp2]
        by_cases hcol : strpfx (dropSpacesL (l.drop 9)) ":" ∧
            (dropSpacesL (l.drop 9)).tail ≠ []
        · cases hparse : parseUIntL (dropSpacesL (l.drop 9)).tail with
          | none =>
            have hstep : procLine ni l = .ok ni := by
              simp only [procLine, if_neg hp1, if_pos hp2, if_pos hcol,
                hparse]
            simp only [cpuinfoLoop, hstep] at h
            obtain ⟨h1, h2, h3, h4, h5⟩ := ih _ _ h
            rw [hcnt, hvals]
            exact ⟨h1, h2, h3, h4, h5⟩
          | some v =>
            obtain ⟨ui, p⟩ := v
            by_cases hterm : mhzTermOk p
            · have hstep : procLine ni l = .ok { ni with mhz := ui } := by
                simp only [procLine, if_neg hp1, if_pos hp2, if_pos hcol,
                  hparse, if_pos hterm]
              simp only [cpuinfoLoop, hstep] at h
              obtain ⟨h1, h2, h3, h4, h5⟩ := ih _ _ h
              rw [hcnt, hvals]
              exact ⟨h1, h2, h3, h4, h5⟩
            · have hstep : procLine ni l = .ok ni := by
                simp only [procLine, if_neg hp1, if_pos hp2, if_pos hcol,
                  hparse, if_neg hterm]
              simp only [cpuinfoLoop, hstep] at h
              obtain ⟨h1, h2, h3, h4, h5⟩ := ih _ _ h
              rw [hcnt, hvals]
              exact ⟨h1, h2, h3, h4, h5⟩
        · have hstep : procLine ni l = .error "parsing cpuinfo cpu MHz" := by
            simp only [procLine, if_neg hp1, if_pos hp2, if_neg hcol]
          simp only [cpuinfoLoop, hstep] at h
          cases h
      · by_cases hp3 : strpfx l "cpu cores"
        · -- cpu cores line
          by_cases hcol : strpfx (dropSpacesL (l.drop 9)) ":" ∧
              (dropSpacesL (l.drop 9)).tail ≠ []
          · cases hparse : parseUIntL (dropSpacesL (l.drop 9)).tail with
            | none =>
              have hvals : coreVals (l :: ls) = coreVals ls := by
                simp [coreVals, List.filterMap_cons, hp1, hp2, hp3, hcol,
                  hparse]
              have hstep : procLine ni l = .ok ni := by
                simp only [procLine, if_neg hp1, if_neg hp2, if_pos hp3,
                  if_pos hcol, hparse]
              simp only [cpuinfoLoop, hstep] at h
              obtain ⟨h1, h2, h3, h4, h5⟩ := ih _ _ h
              rw [hcnt, hvals]
              exact ⟨h1, h2, h3, h4, h5⟩
            | some v =>
              obtain ⟨vid, p⟩ := v
              by_cases hterm : coresTermOk p
              · have hvals : coreVals (l :: ls) = vid :: coreVals ls := by
                  simp [coreVals, List.filterMap_cons, hp1, hp2, hp3, hcol,
                    hparse, hterm]
                by_cases hlt : ni.cores < vid
                · have hstep : procLine ni l = .ok { ni with cores := vid } := by
                    simp only [procLine, if_neg hp1, if_neg hp2, if_pos hp3,
                      if_pos hcol, hparse, if_pos (And.intro hterm hlt)]
                  simp only [cpuinfoLoop, hstep] at h
                  obtain ⟨h1, h2, h3, h4, h5⟩ := ih _ _ h
                  rw [hcnt, hvals]
                  refine ⟨h1, ?_, h3, h4, h5⟩
                  rw [h2, List.foldl_cons,
                    Nat.max_eq_right (Nat.le_of_lt hlt)]
                · have hno : ¬ (coresTermOk p = true ∧ ni.cores < vid) :=
                    fun hx => hlt hx.2
                  have hstep : procLine ni l = .ok ni := by
                    simp only [procLine, if_neg hp1, if_neg hp2, if_pos hp3,
                      if_pos hcol, hparse, if_neg hno]
                  simp only [cpuinfoLoop, hstep] at h
                  obtain ⟨h1, h2, h3, h4, h5⟩ := ih _ _ h
                  rw [hcnt, hvals]
                  refine ⟨h1, ?_, h3, h4, h5⟩
                  rw [h2, List.foldl_cons,
                    Nat.max_eq_left (Nat.not_lt.1 hlt)]
              · have hvals : coreVals (l :: ls) = coreVals ls := by
                  simp [coreVals, List.filterMap_cons, hp1, hp2, hp3, hcol,
                    hparse, hterm]
                have hno : ¬ (coresTermOk p = true ∧ ni.cores < vid) :=
                  fun hx => hterm hx.1
                have hstep : procLine ni l = .ok ni := by
                  simp only [procLine, if_neg hp1, if_neg hp2, if_pos hp3,
                    if_pos hcol, hparse, if_neg hno]
                simp only [cpuinfoLoop, hstep] at h
                obtain ⟨h1, h2, h3, h4, h5⟩ := ih _ _ h
                rw [hcnt, hvals]
                exact ⟨h1, h2, h3, h4, h5⟩
          · have hstep : procLine ni l =
                .error "parsing cpuinfo cpu cores" := by
              simp only [procLine, if_neg hp1, if_neg hp2, if_pos hp3,
                if_neg hcol]
            simp only [cpuinfoLoop, hstep] at h
            cases h
        · -- unrecognized line
          have hvals : coreVals (l :: ls) = coreVals ls := by
            simp [coreVals, List.filterMap_cons, hp1, hp2, hp3]
          have hstep : procLine ni l = .ok ni := by
            simp only [procLine, if_neg hp1, if_neg hp2, if_neg hp3]
          simp only [cpuinfoLoop, hstep] at h
          obtain ⟨h1, h2, h3, h4, h5⟩ := ih _ _ h
          rw [hcnt, hvals]
          exact ⟨h1, h2, h3, h4, h5⟩

/-- C10: the cpuinfo populator fails when the stream has no processor
lines; on success it reports the number of processor lines as the CPU
count, the socket count as the CPU count divided by the core count, the
core count as the maximum accepted cpu cores value (at least 1, the
initial value), and leaves the node and thread counts at 1. -/
theorem claim10_cpuinfo (lines : List (List Char)) :
    (lines.countP (fun l => strpfx l "processor") = 0 →
      ∃ e, linuxNodeInfoCPUPopulate lines = .error e) ∧
    (∀ ni, linuxNodeInfoCPUPopulate lines = .ok ni →
      ni.cpus = lines.countP (fun l => strpfx l "processor") ∧
      0 < ni.cpus ∧
      ni.cores = (coreVals lines).foldl max 1 ∧
      1 ≤ ni.cores ∧
      ni.sockets = ni.cpus / ni.cores ∧
      ni.nodes = 1 ∧ ni.threads = 1) := by
  constructor
  · intro hzero
    cases hloop : cpuinfoLoop virNodeInfoInit lines with
    | error e => exact ⟨e, by simp only [linuxNodeInfoCPUPopulate, hloop]⟩
    | ok ni1 =>
      have hch := cpuinfoLoop_ok_char lines virNodeInfoInit ni1 hloop
      have hz : ni1.cpus = 0 := by
        rw [hch.1, hzero]
        rfl
      exact ⟨"no cpus found",
        by simp only [linuxNodeInfoCPUPopulate, hloop, if_pos hz]⟩
  · intro ni h
    cases hloop : cpuinfoLoop virNodeInfoInit lines with
    | error e =>
      simp only [linuxNodeInfoCPUPopulate, hloop] at h
      cases h
    | ok ni1 =>
      simp only [linuxNodeInfoCPUPopulate, hloop] at h
      by_cases hz : ni1.cpus = 0
      · rw [if_pos hz] at h
        cases h
      · rw [if_neg hz] at h
        simp only [Except.ok.injEq] at h
        subst h
        obtain ⟨h1, h2, h3, h4, h5⟩ :=
          cpuinfoLoop_ok_char lines virNodeInfoInit ni1 hloop
        refine ⟨?_, ?_, ?_, ?_, rfl, h3, h4⟩
        · simp only [h1, virNodeInfoInit]
          omega
        · show 0 < ni1.cpus
          omega
        · exact h2
        · show 1 ≤ ni1.cores
          rw [h2]
          exact le_foldl_max _ _

/-- Witness for C10: an empty stream fails, and a concrete stream with
two processor lines and a cpu cores line yields two CPUs, two cores, one
socket. -/
theorem claim10_cpuinfo_witness :
    (∃ e, linuxNodeInfoCPUPopulate [] = .error e) ∧
    (niW.cpus = linesW.countP (fun l => strpfx l "processor") ∧
     0 < niW.cpus ∧
     niW.cores = (coreVals linesW).foldl max 1 ∧
     1 ≤ niW.cores ∧
     niW.sockets = niW.cpus / niW.cores ∧
     niW.nodes = 1 ∧ niW.threads = 1) :=
  ⟨(claim10_cpuinfo []).1 (by decide),
   (claim10_cpuinfo linesW).2 niW rfl⟩
